import Mathlib

/-!
Verification development for the microchess subsystem of the chess.js
repository: deterministic game generation from a seeded PRNG, a bounded
durable log store, a replay verifier, and the upload deduplication step.

The move-legality rules engine (chess.js) and the platform JSON codec
(JSON.stringify / JSON.parse) are external collaborators; they are modelled
as explicit parameters (`ChessEngine`, `JsonPlatform`).  JavaScript numbers
are modelled as `Nat` with explicit `% 2^32` where the code applies 32-bit
coercions (`>>> 0`, `Math.imul`, `^`, `|`); JavaScript strings are modelled
as Lean `String` (or `List Char` for path manipulation), with `charCodeAt`
modelled by `Char.toNat`.
-/

namespace Microchess

/-! ## Seed hash and fallback PRNG (microchess.js lines 166-185, replay.js lines 134-153) -/

/-- Constant 2^32, the modulus of all 32-bit unsigned coercions in the source. -/
def two32 : Nat := 4294967296

/-- Loop body of `xfnv1a` (microchess.js lines 167-174): `h ^= str.charCodeAt(i);
h = Math.imul(h, 16777619)`.  `Math.imul` keeps the low 32 bits of the product;
the running value is tracked as its unsigned 32-bit residue. -/
def xfnv1aGo (h : Nat) : List Nat → Nat
  | [] => h
  | c :: rest => xfnv1aGo (((h ^^^ c) * 16777619) % two32) rest

/-- Source `xfnv1a(str)`: FNV-1a hash of the char-code sequence of the seed
string, starting from `2166136261 >>> 0`. -/
def xfnv1a (units : List Nat) : Nat := xfnv1aGo 2166136261 units

/-- Modelled from the spec wording (spec section 4.1): start `h = 2166136261`;
for each character, `h = (h XOR char_code) * 16777619 mod 2^32`. -/
def specFnv (units : List Nat) : Nat :=
  units.foldl (fun h c => ((h ^^^ c) * 16777619) % two32) 2166136261

/-- One draw of the source `mulberry32` closure (microchess.js lines 177-185):
`t += 0x6D2B79F5` (plain JS addition, the state itself is never reduced),
`r = Math.imul(t ^ (t >>> 15), 1 | t)`,
`r ^= r + Math.imul(r ^ (r >>> 7), 61 | r)`,
return `((r ^ (r >>> 14)) >>> 0)`.  Every 32-bit coercion performed by the JS
operators is written as an explicit `% two32` on the unsigned residue.
Returns (new state, 32-bit output). -/
def mulberry32Step (t : Nat) : Nat × Nat :=
  let t1 := t + 0x6D2B79F5
  let tu := t1 % two32
  let r1 := ((tu ^^^ (tu >>> 15)) * (1 ||| tu)) % two32
  let r2 := r1 ^^^ ((r1 + ((r1 ^^^ (r1 >>> 7)) * (61 ||| r1)) % two32) % two32)
  (t1, r2 ^^^ (r2 >>> 14))

/-- State of the source stream after `n` draws, starting from `seed`. -/
def mulberry32StateN (seed : Nat) : Nat → Nat
  | 0 => seed
  | n + 1 => (mulberry32Step (mulberry32StateN seed n)).1

/-- The `n`-th 32-bit output (0-based) of the source stream seeded with `seed`. -/
def mulberry32OutN (seed n : Nat) : Nat := (mulberry32Step (mulberry32StateN seed n)).2

/-- The float produced by one source draw from state `t`: the 32-bit output
divided by 4294967296, as an exact rational. -/
def rngDraw (t : Nat) : ℚ := ((mulberry32Step t).2 : ℚ) / (two32 : ℚ)

/-- The `n`-th float of the source stream seeded with `seed`. -/
def rngDrawN (seed n : Nat) : ℚ := ((mulberry32OutN seed n : Nat) : ℚ) / (two32 : ℚ)

/-- Modelled from the spec wording (spec section 4.1): maintain 32-bit unsigned
state `t`; each draw: `t = t + 0x6D2B79F5 (mod 2^32)`;
`r = (t XOR (t >> 15)) * (t OR 1) (mod 2^32)`;
`r = (r XOR (r + ((r XOR (r>>7)) * (r OR 61)))) (mod 2^32)`;
output `((r XOR (r >> 14)) mod 2^32)`. -/
def specMulberryStep (t : Nat) : Nat × Nat :=
  let t1 := (t + 0x6D2B79F5) % two32
  let r1 := ((t1 ^^^ (t1 >>> 15)) * (t1 ||| 1)) % two32
  let r2 := (r1 ^^^ (r1 + ((r1 ^^^ (r1 >>> 7)) * (r1 ||| 61)))) % two32
  (t1, (r2 ^^^ (r2 >>> 14)) % two32)

/-- Named subterm of `mulberry32Step`: the output mixing as a function of the
32-bit residue of the advanced state.  `mulberry32Step_snd` checks by `rfl`
that this is literally the output component of the source step. -/
def mixSrc (tu : Nat) : Nat :=
  let r1 := ((tu ^^^ (tu >>> 15)) * (1 ||| tu)) % two32
  let r2 := r1 ^^^ ((r1 + ((r1 ^^^ (r1 >>> 7)) * (61 ||| r1)) % two32) % two32)
  r2 ^^^ (r2 >>> 14)

/-- Named subterm of `specMulberryStep`: the output mixing of the documented
recurrence as a function of the advanced 32-bit state. -/
def mixSpec (tu : Nat) : Nat :=
  let r1 := ((tu ^^^ (tu >>> 15)) * (tu ||| 1)) % two32
  let r2 := (r1 ^^^ (r1 + ((r1 ^^^ (r1 >>> 7)) * (r1 ||| 61)))) % two32
  (r2 ^^^ (r2 >>> 14)) % two32

/-- State of the spec stream after `n` draws. -/
def specMulberryStateN (seed : Nat) : Nat → Nat
  | 0 => seed
  | n + 1 => (specMulberryStep (specMulberryStateN seed n)).1

/-- The `n`-th 32-bit output of the spec stream. -/
def specMulberryOutN (seed n : Nat) : Nat := (specMulberryStep (specMulberryStateN seed n)).2

/-- Index selection `Math.floor(rng() * legalMoves.length)` (microchess.js line
234, replay.js line 189).  With `out < 2^32` and `len` at most a few hundred,
the double-precision products are exact, so the floor equals `out * len / 2^32`
in natural division. -/
def selectIndex (out len : Nat) : Nat := out * len / two32

/-! ## Rules engine interface and the generation loop -/

/-- Interface of the external rules engine (`new Chess()` from
`../dist/cjs/chess.js`), exactly the members the microchess code calls. -/
structure ChessEngine (Pos : Type) where
  init : Pos
  moves : Pos → List String
  move : Pos → String → Pos
  isGameOver : Pos → Bool
  isCheckmate : Pos → Bool
  isStalemate : Pos → Bool
  isThreefoldRepetition : Pos → Bool
  isInsufficientMaterial : Pos → Bool
  isDraw : Pos → Bool
  turn : Pos → String
  fen : Pos → String

/-- The shared move-selection loop (microchess.js lines 231-238 and the
identical loop in replay.js lines 186-193):
`while (!chess.isGameOver() && ply < maxPlies) { const legalMoves =
chess.moves(); if (!legalMoves || legalMoves.length === 0) break; const move =
legalMoves[Math.floor(rng() * legalMoves.length)]; chess.move(move);
moves.push(move); ply++; }`.  `fuel` is the number of plies still allowed.
Returns the recorded move list and the final position. -/
def gameLoop {Pos : Type} (E : ChessEngine Pos) : Nat → Pos → Nat → List String × Pos
  | 0, pos, _ => ([], pos)
  | fuel + 1, pos, t =>
    if E.isGameOver pos then ([], pos)
    else
      let legal := E.moves pos
      if legal.length = 0 then ([], pos)
      else
        let mv := legal.getD (selectIndex (mulberry32Step t).2 legal.length) ""
        let rest := gameLoop E fuel (E.move pos mv) (mulberry32Step t).1
        (mv :: rest.1, rest.2)

/-- Whitespace predicate for the model of `String.prototype.trim` (the built
strings only ever carry ASCII whitespace). -/
def isJsSpace (c : Char) : Bool := c = ' ' || c = '\t' || c = '\n' || c = '\r'

/-- Model of `String.prototype.trim`: drop whitespace from both ends. -/
def jsTrim (s : String) : String :=
  String.mk (((s.data.dropWhile isJsSpace).reverse.dropWhile isJsSpace).reverse)

/-- Loop of `buildPgnFromMoves` (replay.js lines 163-170, and inline in
microchess.js lines 242-247): every even 0-based index `i` opens a numbered
pair with `Math.floor(i / 2) + 1` followed by `". "`, then the move and a
space. -/
def pgnMovesAux : Nat → List String → String
  | _, [] => ""
  | i, m :: rest =>
    (if i % 2 = 0 then toString (i / 2 + 1) ++ ". " else "") ++ m ++ " " ++ pgnMovesAux (i + 1) rest

/-- Source `buildPgnFromMoves(moves)`: build the numbered move text and
`trim()` it. -/
def buildPgnFromMoves (moves : List String) : String := jsTrim (pgnMovesAux 0 moves)

/-- Result/reason chain of `generateRandomChessGame` (microchess.js lines
249-272): checkmate first (`chess.turn() === 'w' ? '0-1' : '1-0'`), then
stalemate, threefold repetition, insufficient material, other draw; otherwise
the initial `result = '*', reason = ''` stand. -/
def resultOf {Pos : Type} (E : ChessEngine Pos) (pos : Pos) : String × String :=
  if E.isCheckmate pos then
    if E.turn pos = "w" then ("0-1", "Checkmate") else ("1-0", "Checkmate")
  else if E.isStalemate pos then ("1/2-1/2", "Draw by stalemate")
  else if E.isThreefoldRepetition pos then ("1/2-1/2", "Draw by threefold repetition")
  else if E.isInsufficientMaterial pos then ("1/2-1/2", "Draw by insufficient material")
  else if E.isDraw pos then ("1/2-1/2", "Draw")
  else ("*", "")

/-- PGN header block of `generateRandomChessGame` (microchess.js lines
274-280); `dateStr` stands for the wall-clock day string that line 277 derives
from `startTime.toISOString()` (first ten characters, dashes replaced by
dots). -/
def pgnHeaders (dateStr result : String) (plyCount : Nat) : String :=
  "[Event \"Random Game\"]\n[Site \"microchess\"]\n[Date \"" ++ dateStr ++
    "\"]\n[Result \"" ++ result ++ "\"]\n[PlyCount \"" ++ toString plyCount ++ "\"]"

/-- The structured entry returned by `generateRandomChessGame` (microchess.js
lines 284-298).  Note that the record has a `final_fen` field and no `fen`
field. -/
structure GameEntry where
  process : String
  message : String
  status : String
  timestamp : String
  move_count : Nat
  result : String
  reason : String
  final_fen : String
  pgn : String
  rng : String
  rng_version : Option String
  seed : String

deriving instance DecidableEq for GameEntry

/-- Char-code sequence of a string (`charCodeAt` per index, modelled by
`Char.toNat`). -/
def charCodes (s : String) : List Nat := s.data.map Char.toNat

/-- Source `generateRandomChessGame(seedString)` (microchess.js lines 219-299),
specialised to a provided seed and to the fallback RNG branch of
`createRngFromSeed` (seedrandom unavailable, lines 210-212): seed the stream
with `xfnv1a(seed)`, run the move loop up to `MAX_MOVES` plies, then assemble
the entry.  `maxMoves` models the `MICROCHESS_MAX_MOVES` configuration;
`dateStr` and `endIso` model the two wall-clock reads (`startTime` day used in
the PGN Date header, `endTime.toISOString()` stored as `timestamp`). -/
def generateRandomChessGame {Pos : Type} (E : ChessEngine Pos) (maxMoves : Nat)
    (seedStr dateStr endIso : String) : GameEntry :=
  let seedInt := xfnv1a (charCodes seedStr)
  let run := gameLoop E maxMoves E.init seedInt
  let moves := run.1
  let finalPos := run.2
  let pgnMoves := buildPgnFromMoves moves
  let rr := resultOf E finalPos
  let headers := pgnHeaders dateStr rr.1 moves.length
  { process := "microchess"
    message := "Random Game Of Chess: " ++ pgnMoves
    status := "generated"
    timestamp := endIso
    move_count := moves.length
    result := rr.1
    reason := rr.2
    final_fen := E.fen finalPos
    pgn := headers ++ "\n\n" ++ pgnMoves ++ " " ++ rr.1
    rng := "mulberry32"
    rng_version := none
    seed := seedStr }

/-- Result object of `simulateGameWithSeed` (replay.js lines 195-202). -/
structure SimResult where
  rng : String
  seed : String
  moves : List String
  pgnMoves : String
  final_fen : String
  move_count : Nat

deriving instance DecidableEq for SimResult

/-- Source `simulateGameWithSeed(seed, maxPlies)` (replay.js lines 181-203),
fallback RNG branch of its `createRngFromSeed` (lines 155-161). -/
def simulateGameWithSeed {Pos : Type} (E : ChessEngine Pos) (seedStr : String)
    (maxPlies : Nat) : SimResult :=
  let seedInt := xfnv1a (charCodes seedStr)
  let run := gameLoop E maxPlies E.init seedInt
  let moves := run.1
  { rng := "mulberry32"
    seed := seedStr
    moves := moves
    pgnMoves := buildPgnFromMoves moves
    final_fen := E.fen run.2
    move_count := moves.length }

/-! ## Bounded log store: trim, retrying persist, load (microchess.js lines 94-160) -/

/-- Source `trimLogsToFitSize(logs)` (microchess.js lines 123-137 and the
identical function in the sibling microchess.js file, lines 49-56):
`while (Buffer.byteLength(json, 'utf8') > MAX_SIZE_BYTES && logs.length > 0)
{ logs.shift(); json = JSON.stringify(logs, null, 2); }`.  The serialized byte
size `Buffer.byteLength(JSON.stringify(logs, null, 2))` is abstracted as the
function parameter `byteSize`; `maxSizeBytes` models `MICROCHESS_MAX_SIZE_BYTES`. -/
def trimLogsToFitSize {R : Type} (byteSize : List R → Nat) (maxSizeBytes : Nat) :
    List R → List R
  | [] => []
  | r :: rest =>
    if byteSize (r :: rest) > maxSizeBytes then trimLogsToFitSize byteSize maxSizeBytes rest
    else r :: rest

/-- JSON quoting of an escape-free string, for the concrete instantiation of
the serialized size of a record list. -/
def jsonQuote (s : String) : String := "\"" ++ s ++ "\""

/-- Concrete `JSON.stringify(logs, null, 2)` for a list of escape-free string
records: two-space indentation, one record per line. -/
def jsonArray2 (logs : List String) : String :=
  if logs.isEmpty then "[]"
  else "[\n" ++ String.intercalate ",\n" (logs.map (fun s => "  " ++ jsonQuote s)) ++ "\n]"

/-- Concrete `Buffer.byteLength(JSON.stringify(logs, null, 2), 'utf8')` for
string records. -/
def jsonStringSize (logs : List String) : Nat := (jsonArray2 logs).utf8ByteSize

/-- Observable outcome of `writeLogsWithRetries`: the promise resolves
(success, with the list of backoff delays awaited along the way) or rejects
(the final error is re-thrown to the caller). -/
inductive WriteOutcome where
  | success (delays : List Nat)
  | failure

deriving instance DecidableEq for WriteOutcome

/-- Loop of `writeLogsWithRetries` (microchess.js lines 142-160).  `succeeds k`
tells whether the `k`-th (0-based) `atomicWriteJson` attempt succeeds;
`attempt` is the source loop variable and `remaining = maxRetries - attempt`
drives the recursion.  On failure the source increments `attempt`, re-throws
once `attempt >= MAX_WRITE_RETRIES`, and otherwise awaits `100 * attempt`
milliseconds before retrying. -/
def writeRetryGo (succeeds : Nat → Bool) : Nat → Nat → List Nat → WriteOutcome
  | _, 0, delays => WriteOutcome.success delays
  | attempt, remaining + 1, delays =>
    if succeeds attempt then WriteOutcome.success delays
    else if remaining = 0 then WriteOutcome.failure
    else writeRetryGo succeeds (attempt + 1) remaining (delays ++ [100 * (attempt + 1)])

/-- Source `writeLogsWithRetries(logs)` with `MAX_WRITE_RETRIES = maxRetries`:
start at `attempt = 0` with no delays awaited yet. -/
def writeLogsWithRetries (succeeds : Nat → Bool) (maxRetries : Nat) : WriteOutcome :=
  writeRetryGo succeeds 0 maxRetries []

/-! ## Persist / load round trip (microchess.js lines 94-116) -/

/-- Shape of a parsed top-level JSON document as `loadLogs` inspects it:
either a top-level array of records, or something else. -/
inductive ParsedTop (R : Type) where
  | arrayOf (records : List R)
  | nonArray

deriving instance DecidableEq for ParsedTop

/-- The platform JSON codec (`JSON.stringify(data, null, 2)` and
`JSON.parse`), an external collaborator modelled as a parameter.  `parse`
returning `none` models a `JSON.parse` throw. -/
structure JsonPlatform (R : Type) where
  stringify : List R → String
  parse : String → Option (ParsedTop R)

/-- Source `os.EOL` on the deployment platform (POSIX). -/
def osEOL : String := "\n"

/-- File content produced by `atomicWriteJson` (microchess.js lines 94-99):
`JSON.stringify(data, null, 2) + os.EOL`, written to a temp file and renamed
into place, so a reader sees exactly this content. -/
def atomicWriteContent {R : Type} (P : JsonPlatform R) (data : List R) : String :=
  P.stringify data ++ osEOL

/-- Source `loadLogs()` (microchess.js lines 104-116): absent file gives `[]`;
a `JSON.parse` throw is caught and gives `[]`; a parsed non-array gives `[]`;
a parsed array is returned as-is. -/
def loadLogs {R : Type} (P : JsonPlatform R) (content : Option String) : List R :=
  match content with
  | none => []
  | some s =>
    match P.parse s with
    | none => []
    | some ParsedTop.nonArray => []
    | some (ParsedTop.arrayOf records) => records

/-- Concrete witness codec over `Unit` records: a list is serialized as a run
of `x` characters and parsed back by counting them. -/
def unaryPlatform : JsonPlatform Unit :=
  { stringify := fun l => String.mk (List.replicate l.length 'x')
    parse := fun s => some (ParsedTop.arrayOf (List.replicate (s.data.count 'x') ())) }

/-! ## Upload deduplication (jsonbin_randomchess.js lines 60-68) -/

/-- A record as the upload task sees it: the `fen` property its filter reads
(`none` models an absent property, and the empty string is also falsy in JS),
and the `final_fen` property the generator actually writes. -/
structure UploadGame where
  fen : Option String
  final_fen : String

deriving instance DecidableEq for UploadGame

/-- View of a generator-produced entry (microchess.js lines 284-298) as upload
input: the record carries `final_fen` but no `fen` property. -/
def uploadViewOfEntry (e : GameEntry) : UploadGame :=
  { fen := none, final_fen := e.final_fen }

/-- Filter body of the dedup step (jsonbin_randomchess.js lines 61-67) with its
`seen` set threaded through: `if (!game.fen) return true; if
(seen.has(game.fen)) return false; seen.add(game.fen); return true;`. -/
def dedupGo (seen : List String) : List UploadGame → List UploadGame
  | [] => []
  | g :: rest =>
    match g.fen with
    | none => g :: dedupGo seen rest
    | some s =>
      if s = "" then g :: dedupGo seen rest
      else if s ∈ seen then dedupGo seen rest
      else g :: dedupGo (s :: seen) rest

/-- Source deduplication: `data.filter(...)` with an initially empty `seen`
set. -/
def dedupByFen (games : List UploadGame) : List UploadGame := dedupGo [] games

/-! ## Replay verifier main (replay.js lines 236-323) -/

/-- The stored-entry fields the replay verifier reads (seed, ply count, and the
fields echoed in the comparison). -/
structure StoredEntry where
  seed : String
  move_count : Nat
  result : String
  final_fen : String
  pgn : String

deriving instance DecidableEq for StoredEntry

/-- Placeholder for the unreachable out-of-range `List.getD` default. -/
def defaultStoredEntry : StoredEntry :=
  { seed := "", move_count := 0, result := "", final_fen := "", pgn := "" }

/-- Observable outcome of one replay.js invocation after argument parsing:
which files were read, the exit code if the process exited, and the simulation
or comparison it produced. -/
structure ReplayRun where
  reads : List (List Char)
  exitCode : Option Nat
  comparison : Option (SimResult × StoredEntry)
  simOnly : Option SimResult

deriving instance DecidableEq for ReplayRun

/-- Model of `String.prototype.startsWith`: `jsStartsWith s pre` is true iff
`pre` is a prefix of `s`. -/
def jsStartsWith : List Char → List Char → Bool
  | _, [] => true
  | [], _ :: _ => false
  | c :: cs, p :: ps => c == p && jsStartsWith cs ps

/-- Join path components with the separator `/` (no leading slash). -/
def joinComponents : List (List Char) → List Char
  | [] => []
  | [c] => c
  | c :: d :: rest => c ++ '/' :: joinComponents (d :: rest)

/-- Render an absolute resolved path from its components, as
`path.resolve` produces it on POSIX. -/
def renderAbs (cs : List (List Char)) : List Char := '/' :: joinComponents cs

/-- Validity of resolved-path components: no component contains the
separator. -/
def slashFree (cs : List (List Char)) : Prop := ∀ c ∈ cs, '/' ∉ c

instance (cs : List (List Char)) : Decidable (slashFree cs) := by
  unfold slashFree
  infer_instance

/-- The path with components `p` lies strictly inside the directory with
components `b`: `b` is a proper prefix of `p`. -/
def insideDir (b p : List (List Char)) : Prop :=
  p.take b.length = b ∧ b.length < p.length

instance (b p : List (List Char)) : Decidable (insideDir b p) := by
  unfold insideDir
  infer_instance

/-- Source `main()` of replay.js from the path-safety gate on (lines 251-323).
Inputs model the parsed CLI arguments: `fileArg` is the already resolved
`--file` path (`path.resolve(fileArg)`); `fsRead p` is the outcome of
`readJsonFile(p)` (`none` a read/parse throw, `some none` a non-array
document, `some (some arr)` an array).  The gate (lines 254-258) rejects with
exit code 1, before any read, any path that does not start with
`BASE_DIR + path.sep`.  With no seed and no index the script lists entries and
exits 0 (or 2 on read failure, lines 261-281).  With `--index n` it reads the
store, selects `arr[arr.length - 1 - n]`, exits 3 when that entry does not
exist (lines 286-301), exits 1 via `usageAndExit` when the selected seed is
falsy (lines 303-306), and otherwise re-simulates with the stored seed and the
stored `move_count` as the ply cap (lines 308-311).  With only `--seed s` it
simulates `s` under the configured `MAX_MOVES` cap without touching the
store. -/
def replayMain {Pos : Type} (E : ChessEngine Pos) (maxMovesCfg : Nat) (baseDir : List Char)
    (fileArg : Option (List Char)) (fsRead : List Char → Option (Option (List StoredEntry)))
    (seedArg : Option String) (indexArg : Option Nat) : ReplayRun :=
  let filePath := match fileArg with
    | some f => f
    | none => baseDir ++ '/' :: "randomchess.json".data
  if jsStartsWith filePath (baseDir ++ ['/']) = false then
    { reads := [], exitCode := some 1, comparison := none, simOnly := none }
  else
    match seedArg, indexArg with
    | none, none =>
      match fsRead filePath with
      | none => { reads := [filePath], exitCode := some 2, comparison := none, simOnly := none }
      | some none => { reads := [filePath], exitCode := some 2, comparison := none, simOnly := none }
      | some (some _) => { reads := [filePath], exitCode := some 0, comparison := none, simOnly := none }
    | _, some k =>
      match fsRead filePath with
      | none => { reads := [filePath], exitCode := some 3, comparison := none, simOnly := none }
      | some none => { reads := [filePath], exitCode := some 3, comparison := none, simOnly := none }
      | some (some arr) =>
        if k < arr.length then
          let entry := arr.getD (arr.length - 1 - k) defaultStoredEntry
          if entry.seed = "" then
            { reads := [filePath], exitCode := some 1, comparison := none, simOnly := none }
          else
            { reads := [filePath], exitCode := none,
              comparison := some (simulateGameWithSeed E entry.seed entry.move_count, entry),
              simOnly := none }
        else { reads := [filePath], exitCode := some 3, comparison := none, simOnly := none }
    | some s, none =>
      if s = "" then
        { reads := [], exitCode := some 1, comparison := none, simOnly := none }
      else
        { reads := [], exitCode := none, comparison := none,
          simOnly := some (simulateGameWithSeed E s maxMovesCfg) }

/-! ## Concrete engines for witnesses -/

/-- Toy rules engine: the game never ends and there are always three legal
moves. -/
def toyEngine : ChessEngine Unit :=
  { init := ()
    moves := fun _ => ["a3", "b3", "c3"]
    move := fun _ _ => ()
    isGameOver := fun _ => false
    isCheckmate := fun _ => false
    isStalemate := fun _ => false
    isThreefoldRepetition := fun _ => false
    isInsufficientMaterial := fun _ => false
    isDraw := fun _ => false
    turn := fun _ => "w"
    fen := fun _ => "toy-fen" }

/-- Concrete five-field store entries for exercising the replay verifier. -/
def witnessStore : List StoredEntry :=
  [{ seed := "s1", move_count := 1, result := "*", final_fen := "f1", pgn := "p1" },
   { seed := "s2", move_count := 2, result := "*", final_fen := "f2", pgn := "p2" }]

/-- Toy rules engine whose start position is already terminal. -/
def haltedEngine : ChessEngine Unit :=
  { toyEngine with isGameOver := fun _ => true, moves := fun _ => [] }

/-- Toy rules engine with prescribed terminal classification flags, for
exercising the result/reason chain. -/
def stubEngine (mate stale rep insuf draw : Bool) (turnStr : String) : ChessEngine Unit :=
  { toyEngine with
    isCheckmate := fun _ => mate
    isStalemate := fun _ => stale
    isThreefoldRepetition := fun _ => rep
    isInsufficientMaterial := fun _ => insuf
    isDraw := fun _ => draw
    turn := fun _ => turnStr }

/-! ## Lemmas about the PRNG embedding -/

theorem two32_eq : two32 = 2 ^ 32 := by decide

theorem mod_two32_lt (x : Nat) : x % two32 < two32 := Nat.mod_lt x (by decide)

theorem xor_mod_two_pow_eq (x y n : Nat) :
    (x ^^^ y) % 2 ^ n = x % 2 ^ n ^^^ y % 2 ^ n := by
  apply Nat.eq_of_testBit_eq
  intro i
  simp only [Nat.testBit_mod_two_pow, Nat.testBit_xor]
  by_cases h : i < n <;> simp [h]

theorem xor_mod_two32 (x y : Nat) : (x ^^^ y) % two32 = x % two32 ^^^ y % two32 := by
  rw [two32_eq]
  exact xor_mod_two_pow_eq x y 32

theorem xor_lt_two32 {a b : Nat} (ha : a < two32) (hb : b < two32) : a ^^^ b < two32 := by
  rw [two32_eq] at ha hb ⊢
  exact Nat.xor_lt_two_pow ha hb

theorem shiftRight_le_self (a k : Nat) : a >>> k ≤ a := by
  rw [Nat.shiftRight_eq_div_pow]
  exact Nat.div_le_self a (2 ^ k)

theorem mulberry32Step_out_lt (t : Nat) : (mulberry32Step t).2 < two32 := by
  have h2 : ∀ x y : Nat, x % two32 ^^^ y % two32 < two32 :=
    fun x y => xor_lt_two32 (mod_two32_lt x) (mod_two32_lt y)
  exact xor_lt_two32 (h2 _ _) (Nat.lt_of_le_of_lt (shiftRight_le_self _ _) (h2 _ _))

theorem mix_eq (a P : Nat) (ha : a < two32) :
    (a ^^^ (a + P)) % two32 = a ^^^ ((a + P % two32) % two32) := by
  rw [xor_mod_two32, Nat.mod_eq_of_lt ha]
  congr 1
  simp only [two32]
  omega

theorem mulberry32Step_snd (t : Nat) :
    (mulberry32Step t).2 = mixSrc ((t + 0x6D2B79F5) % two32) := rfl

theorem specMulberryStep_snd (t : Nat) :
    (specMulberryStep t).2 = mixSpec ((t + 0x6D2B79F5) % two32) := rfl

theorem mixSpec_eq_mixSrc (tu : Nat) : mixSpec tu = mixSrc tu := by
  unfold mixSpec mixSrc
  simp only [Nat.lor_comm tu 1]
  set r1 := ((tu ^^^ (tu >>> 15)) * (1 ||| tu)) % two32 with hr1
  have hlt : r1 < two32 := by rw [hr1]; exact mod_two32_lt _
  rw [Nat.lor_comm r1 61]
  set P := (r1 ^^^ (r1 >>> 7)) * (61 ||| r1) with hP
  have h2 : (r1 ^^^ (r1 + P)) % two32 = r1 ^^^ ((r1 + P % two32) % two32) :=
    mix_eq r1 P hlt
  rw [h2]
  have h3 : r1 ^^^ ((r1 + P % two32) % two32) < two32 :=
    xor_lt_two32 hlt (mod_two32_lt _)
  exact Nat.mod_eq_of_lt (xor_lt_two32 h3 (Nat.lt_of_le_of_lt (shiftRight_le_self _ _) h3))

theorem specMulberryStep_eq (t : Nat) :
    specMulberryStep (t % two32) = ((mulberry32Step t).1 % two32, (mulberry32Step t).2) := by
  have h1 : (specMulberryStep (t % two32)).1 = (mulberry32Step t).1 % two32 := by
    show (t % two32 + 0x6D2B79F5) % two32 = (t + 0x6D2B79F5) % two32
    exact Nat.mod_add_mod t two32 0x6D2B79F5
  have h2 : (specMulberryStep (t % two32)).2 = (mulberry32Step t).2 := by
    rw [specMulberryStep_snd, mulberry32Step_snd, Nat.mod_add_mod, mixSpec_eq_mixSrc]
  exact Prod.ext_iff.mpr ⟨h1, h2⟩

theorem specStream_eq (seed : Nat) (hs : seed < two32) (n : Nat) :
    specMulberryStateN seed n = mulberry32StateN seed n % two32 ∧
    specMulberryOutN seed n = mulberry32OutN seed n := by
  induction n with
  | zero =>
    refine ⟨(Nat.mod_eq_of_lt hs).symm, ?_⟩
    show (specMulberryStep seed).2 = (mulberry32Step seed).2
    calc (specMulberryStep seed).2
        = (specMulberryStep (seed % two32)).2 := by rw [Nat.mod_eq_of_lt hs]
      _ = (mulberry32Step seed).2 := by rw [specMulberryStep_eq]
  | succ n ih =>
    have hstate : specMulberryStateN seed (n + 1) = mulberry32StateN seed (n + 1) % two32 := by
      show (specMulberryStep (specMulberryStateN seed n)).1 =
        (mulberry32Step (mulberry32StateN seed n)).1 % two32
      rw [ih.1, specMulberryStep_eq]
    refine ⟨hstate, ?_⟩
    show (specMulberryStep (specMulberryStateN seed (n + 1))).2 =
      (mulberry32Step (mulberry32StateN seed (n + 1))).2
    rw [hstate, specMulberryStep_eq]

theorem xfnv1aGo_lt (units : List Nat) : ∀ h : Nat, h < two32 → xfnv1aGo h units < two32 := by
  induction units with
  | nil => intro h hh; exact hh
  | cons c rest ih => intro h _; exact ih _ (mod_two32_lt _)

theorem xfnv1a_lt (units : List Nat) : xfnv1a units < two32 :=
  xfnv1aGo_lt units 2166136261 (by decide)

theorem xfnv1aGo_eq_foldl (units : List Nat) : ∀ h : Nat,
    xfnv1aGo h units = units.foldl (fun h c => ((h ^^^ c) * 16777619) % two32) h := by
  induction units with
  | nil => intro h; rfl
  | cons c rest ih => intro h; exact ih _

theorem xfnv1a_eq_specFnv (units : List Nat) : xfnv1a units = specFnv units :=
  xfnv1aGo_eq_foldl units 2166136261

/-! ## Claim theorems for the PRNG -/

/-- C2: for every seed (as its char-code sequence), the fallback factory
hashes with FNV-1a exactly as documented, the n-th 32-bit draw of the source
stream equals the n-th draw of the documented mulberry32 recurrence on 32-bit
unsigned state, each float output is the final 32-bit value divided by 2^32,
and every draw lies in [0, 1). -/
theorem fallback_rng_matches_documented_algorithm (units : List Nat) (n : Nat) :
    xfnv1a units = specFnv units ∧
    mulberry32OutN (xfnv1a units) n = specMulberryOutN (specFnv units) n ∧
    rngDrawN (xfnv1a units) n = ((mulberry32OutN (xfnv1a units) n : Nat) : ℚ) / (two32 : ℚ) ∧
    0 ≤ rngDrawN (xfnv1a units) n ∧ rngDrawN (xfnv1a units) n < 1 := by
  have hlt : mulberry32OutN (xfnv1a units) n < two32 := mulberry32Step_out_lt _
  refine ⟨xfnv1a_eq_specFnv units, ?_, rfl, ?_, ?_⟩
  · rw [← xfnv1a_eq_specFnv]
    exact ((specStream_eq (xfnv1a units) (xfnv1a_lt units) n).2).symm
  · unfold rngDrawN
    positivity
  · unfold rngDrawN
    rw [div_lt_one (by norm_num [two32])]
    exact_mod_cast hlt

/-- C10: whenever the legal-move list is non-empty, the selected move index
floor(draw * count) computed from any stream state is strictly below the
count, and the stream draw itself is strictly below 1; the list indexing in
the generation and replay loops therefore never goes out of bounds. -/
theorem selected_move_index_in_range (t : Nat) (legal : List String) (h : legal ≠ []) :
    selectIndex (mulberry32Step t).2 legal.length < legal.length ∧ rngDraw t < 1 := by
  have hlen : 0 < legal.length := List.length_pos.mpr h
  have hout : (mulberry32Step t).2 < two32 := mulberry32Step_out_lt t
  constructor
  · unfold selectIndex
    rw [Nat.div_lt_iff_lt_mul (by decide : 0 < two32)]
    calc (mulberry32Step t).2 * legal.length
        < two32 * legal.length := mul_lt_mul_of_pos_right hout hlen
      _ = legal.length * two32 := Nat.mul_comm _ _
  · unfold rngDraw
    rw [div_lt_one (by norm_num [two32])]
    exact_mod_cast hout

/-- C10 witness: at state 0 with a singleton legal-move list the index is 0
and the draw is below 1. -/
theorem selected_move_index_in_range_witness :
    (["a3"] : List String) ≠ [] ∧
    (selectIndex (mulberry32Step 0).2 (["a3"] : List String).length <
        (["a3"] : List String).length ∧ rngDraw 0 < 1) :=
  ⟨by decide, selected_move_index_in_range 0 ["a3"] (by decide)⟩

/-! ## Claim theorems for the generator -/

/-- C1 (amended): two generator invocations with the same seed, the same ply
cap, the same fallback RNG selection and the same rules engine produce
identical move lists and identical final position encodings (witnessed through
the move-list message, ply count, result and final FEN, which are all
clock-independent); the transcripts coincide whenever both invocations observe
the same wall-clock date, and the full records coincide when the end
timestamps also agree. -/
theorem generator_deterministic (Pos : Type) (E : ChessEngine Pos) (m : Nat)
    (s d1 d2 iso1 iso2 : String) :
    (generateRandomChessGame E m s d1 iso1).message =
        (generateRandomChessGame E m s d2 iso2).message ∧
    (generateRandomChessGame E m s d1 iso1).move_count =
        (generateRandomChessGame E m s d2 iso2).move_count ∧
    (generateRandomChessGame E m s d1 iso1).final_fen =
        (generateRandomChessGame E m s d2 iso2).final_fen ∧
    (generateRandomChessGame E m s d1 iso1).result =
        (generateRandomChessGame E m s d2 iso2).result ∧
    (d1 = d2 → (generateRandomChessGame E m s d1 iso1).pgn =
        (generateRandomChessGame E m s d2 iso2).pgn) ∧
    (d1 = d2 → iso1 = iso2 → generateRandomChessGame E m s d1 iso1 =
        generateRandomChessGame E m s d2 iso2) := by
  refine ⟨rfl, rfl, rfl, rfl, fun h => by subst h; exact rfl, fun h h2 => by rw [h, h2]⟩

/-- C1 counterexample: both invocations use seed "abc123", ply cap 100, the
fallback RNG and the same rules engine, but observe different wall-clock
dates; the transcripts (the PGN with its Date header) differ, so the claim
that such invocations always yield identical transcripts is false. -/
theorem generator_transcript_counterexample :
    (generateRandomChessGame haltedEngine 100 "abc123" "2026.10.11" "T").pgn ≠
    (generateRandomChessGame haltedEngine 100 "abc123" "2026.10.12" "T").pgn := by
  decide

/-- C1 witness: with equal clock readings the amended determinism theorem
yields full record equality. -/
theorem generator_deterministic_witness :
    generateRandomChessGame haltedEngine 100 "abc123" "2026.10.11" "T" =
      generateRandomChessGame haltedEngine 100 "abc123" "2026.10.11" "T" :=
  (generator_deterministic Unit haltedEngine 100 "abc123" "2026.10.11" "2026.10.11"
    "T" "T").2.2.2.2.2 rfl rfl

/-- C8: result code and reason derived from the terminal classification:
checkmate gives the win to the side not to move (white to move gives 0-1,
black to move gives 1-0); stalemate, threefold repetition, insufficient
material or any other draw give 1/2-1/2; with none of these the initial
result `*` (empty reason) stands, in particular when only the ply cap
stopped the game. -/
theorem result_code_classification (Pos : Type) (E : ChessEngine Pos) (pos : Pos) :
    (E.isCheckmate pos = true → E.turn pos = "w" →
        resultOf E pos = ("0-1", "Checkmate")) ∧
    (E.isCheckmate pos = true → E.turn pos = "b" →
        resultOf E pos = ("1-0", "Checkmate")) ∧
    (E.isCheckmate pos = false →
        (E.isStalemate pos = true ∨ E.isThreefoldRepetition pos = true ∨
         E.isInsufficientMaterial pos = true ∨ E.isDraw pos = true) →
        (resultOf E pos).1 = "1/2-1/2") ∧
    (E.isCheckmate pos = false → E.isStalemate pos = false →
        E.isThreefoldRepetition pos = false → E.isInsufficientMaterial pos = false →
        E.isDraw pos = false → resultOf E pos = ("*", "")) := by
  refine ⟨?_, ?_, ?_, ?_⟩
  · intro h hw
    simp [resultOf, h, hw]
  · intro h hb
    simp [resultOf, h, hb]
  · intro hmate hdraw
    rcases hdraw with h | h | h | h
    · simp [resultOf, hmate, h]
    · by_cases hs : E.isStalemate pos <;> simp [resultOf, hmate, hs, h]
    · by_cases hs : E.isStalemate pos <;> by_cases h3 : E.isThreefoldRepetition pos <;>
        simp [resultOf, hmate, hs, h3, h]
    · by_cases hs : E.isStalemate pos <;> by_cases h3 : E.isThreefoldRepetition pos <;>
        by_cases h4 : E.isInsufficientMaterial pos <;>
        simp [resultOf, hmate, hs, h3, h4, h]
  · intro h1 h2 h3 h4 h5
    simp [resultOf, h1, h2, h3, h4, h5]

/-- C8 witness: concrete engines exercising the checkmate (both sides), draw
and unfinished branches of the classification. -/
theorem result_code_classification_witness :
    resultOf (stubEngine true false false false false "w") () = ("0-1", "Checkmate") ∧
    resultOf (stubEngine true false false false false "b") () = ("1-0", "Checkmate") ∧
    (resultOf (stubEngine false false true false false "w") ()).1 = "1/2-1/2" ∧
    resultOf (stubEngine false false false false false "w") () = ("*", "") :=
  ⟨(result_code_classification Unit (stubEngine true false false false false "w") ()).1
       rfl rfl,
   (result_code_classification Unit (stubEngine true false false false false "b") ()).2.1
      rfl rfl,
   (result_code_classification Unit (stubEngine false false true false false "w") ()).2.2.1
      rfl (Or.inr (Or.inl rfl)),
   (result_code_classification Unit (stubEngine false false false false false "w") ()).2.2.2
      rfl rfl rfl rfl rfl⟩

/-! ## Claim theorems for the bounded log store -/

/-- C3 (amended): after `trimLogsToFitSize` completes, the serialized byte
size of the remaining sequence is at most the configured budget, or the
sequence is empty: the eviction loop also drops a final record that alone
exceeds the budget, so no oversized single record is ever retained. -/
theorem trim_fits_or_empty {R : Type} (byteSize : List R → Nat) (maxSizeBytes : Nat)
    (logs : List R) :
    byteSize (trimLogsToFitSize byteSize maxSizeBytes logs) ≤ maxSizeBytes ∨
    trimLogsToFitSize byteSize maxSizeBytes logs = [] := by
  induction logs with
  | nil => exact Or.inr rfl
  | cons r rest ih =>
    by_cases h : byteSize (r :: rest) > maxSizeBytes
    · simpa [trimLogsToFitSize, h] using ih
    · left
      simp only [trimLogsToFitSize, h, if_false]
      omega

/-- C3 counterexample: with configured budget 1 byte (an admissible
`MICROCHESS_MAX_SIZE_BYTES` value) and one record whose own serialization is
18 bytes, trim evicts the oversized record instead of tolerating it; the
result is the empty sequence, whose serialization (2 bytes) still exceeds the
budget, so the trimmed sequence neither fits the budget nor consists of
exactly one oversized record. -/
theorem trim_counterexample :
    trimLogsToFitSize jsonStringSize 1 ["0123456789"] = [] ∧
    jsonStringSize ["0123456789"] = 18 ∧
    ¬ (jsonStringSize (trimLogsToFitSize jsonStringSize 1 ["0123456789"]) ≤ 1 ∨
       ((trimLogsToFitSize jsonStringSize 1 ["0123456789"]).length = 1 ∧
        1 < jsonStringSize (trimLogsToFitSize jsonStringSize 1 ["0123456789"]))) := by
  decide

/-- Retry loop exhaustion: if every attempt in the window fails, the loop
ends in failure. -/
theorem writeRetryGo_all_fail (succeeds : Nat → Bool) :
    ∀ remaining attempt delays, 1 ≤ remaining →
      (∀ j, j < remaining → succeeds (attempt + j) = false) →
      writeRetryGo succeeds attempt remaining delays = WriteOutcome.failure := by
  intro remaining
  induction remaining with
  | zero => intro _ _ h; omega
  | succ rem ih =>
    intro attempt delays _ hall
    have h0 : succeeds attempt = false := by
      have := hall 0 (by omega)
      simpa using this
    by_cases hrem : rem = 0
    · subst hrem
      simp [writeRetryGo, h0]
    · have hrem1 : 1 ≤ rem := by omega
      have hall2 : ∀ j, j < rem → succeeds (attempt + 1 + j) = false := by
        intro j hj
        have := hall (j + 1) (by omega)
        simpa [Nat.add_assoc, Nat.add_comm 1 j] using this
      simp [writeRetryGo, h0, hrem]
      exact ih (attempt + 1) (delays ++ [100 * (attempt + 1)]) hrem1 hall2

/-- Shift identity for the delay list of the retry loop. -/
theorem range_map_delay_shift (attempt k : Nat) :
    (List.range (k + 1)).map (fun j => 100 * (attempt + j + 1)) =
      100 * (attempt + 1) :: (List.range k).map (fun j => 100 * (attempt + 1 + j + 1)) := by
  rw [List.range_succ_eq_map]
  simp only [List.map_cons, List.map_map]
  refine congrArg₂ List.cons (by omega) ?_
  apply List.map_congr_left
  intro j _
  simp only [Function.comp_apply]
  omega

/-- Retry loop first success: if the k-th attempt in the window succeeds and
all earlier ones fail, the loop succeeds having awaited the linearly
increasing delays. -/
theorem writeRetryGo_first_success (succeeds : Nat → Bool) :
    ∀ k remaining attempt delays, k < remaining →
      succeeds (attempt + k) = true →
      (∀ j, j < k → succeeds (attempt + j) = false) →
      writeRetryGo succeeds attempt remaining delays =
        WriteOutcome.success (delays ++ (List.range k).map (fun j => 100 * (attempt + j + 1))) := by
  intro k
  induction k with
  | zero =>
    intro remaining attempt delays hk hsucc _
    match remaining, hk with
    | rem + 1, _ =>
      have h0 : succeeds attempt = true := by simpa using hsucc
      simp [writeRetryGo, h0]
  | succ k ih =>
    intro remaining attempt delays hk hsucc hfail
    match remaining, hk with
    | rem + 1, hk =>
      have h0 : succeeds attempt = false := by
        have := hfail 0 (by omega)
        simpa using this
      have hrem : rem ≠ 0 := by omega
      simp only [writeRetryGo, h0, if_false, hrem, Bool.false_eq_true]
      have hsucc2 : succeeds (attempt + 1 + k) = true := by
        have heq : attempt + 1 + k = attempt + (k + 1) := by omega
        rw [heq]
        exact hsucc
      have hfail2 : ∀ j, j < k → succeeds (attempt + 1 + j) = false := by
        intro j hj
        have heq : attempt + 1 + j = attempt + (j + 1) := by omega
        rw [heq]
        exact hfail (j + 1) (by omega)
      have := ih rem (attempt + 1) (delays ++ [100 * (attempt + 1)]) (by omega) hsucc2 hfail2
      rw [this, List.append_assoc, range_map_delay_shift]
      rfl

/-- C5: with at least one configured attempt, `writeLogsWithRetries` fails
(re-throws to the caller) exactly when every attempt up to the configured
count fails, having awaited `100 * attempt_number` between consecutive
attempts; and it returns success as soon as some attempt succeeds, with the
delays awaited so far being `100 * 1, ..., 100 * k` for the k failures that
preceded it. -/
theorem write_retries_spec (succeeds : Nat → Bool) (maxRetries : Nat)
    (hmax : 1 ≤ maxRetries) :
    ((∀ k, k < maxRetries → succeeds k = false) →
        writeLogsWithRetries succeeds maxRetries = WriteOutcome.failure) ∧
    (∀ k, k < maxRetries → succeeds k = true → (∀ j, j < k → succeeds j = false) →
        writeLogsWithRetries succeeds maxRetries =
          WriteOutcome.success ((List.range k).map (fun j => 100 * (j + 1)))) := by
  constructor
  · intro hall
    exact writeRetryGo_all_fail succeeds maxRetries 0 [] hmax (by simpa using hall)
  · intro k hk hsucc hfail
    have := writeRetryGo_first_success succeeds k maxRetries 0 [] hk (by simpa using hsucc)
      (by simpa using hfail)
    simpa [writeLogsWithRetries] using this

/-- C5 witness: three configured attempts, the first fails and the second
succeeds; the call returns success after awaiting the single delay 100 * 1. -/
theorem write_retries_spec_witness :
    (1 : Nat) ≤ 3 ∧
    writeLogsWithRetries (fun k => decide (k = 1)) 3 = WriteOutcome.success [100] := by
  refine ⟨by decide, ?_⟩
  have h := (write_retries_spec (fun k => decide (k = 1)) 3 (by decide)).2 1
    (by decide) (by decide) (by decide)
  simpa using h

/-! ## Claim theorem for the upload deduplication -/

/-- C4 failing-input evaluation: two records that share the same
final-position key (`final_fen`) but, like every record the generator writes,
carry no `fen` property, are both kept by the dedup step; the duplicate by
final-position key is not removed. -/
theorem dedup_ignores_final_fen :
    dedupByFen
      [{ fen := none, final_fen := "4k3/8/8/8/8/8/8/4K3 w - - 0 1" },
       { fen := none, final_fen := "4k3/8/8/8/8/8/8/4K3 w - - 0 1" }] =
      [({ fen := none, final_fen := "4k3/8/8/8/8/8/8/4K3 w - - 0 1" } : UploadGame),
       { fen := none, final_fen := "4k3/8/8/8/8/8/8/4K3 w - - 0 1" }] := by
  decide

/-- Generalization of the C4 failure: on any list of generator-produced
records the dedup step removes nothing at all, because the `fen` property it
keys on is absent from every record. -/
theorem dedup_noop_on_generated_records (l : List GameEntry) :
    dedupByFen (l.map uploadViewOfEntry) = l.map uploadViewOfEntry := by
  show dedupGo [] (l.map uploadViewOfEntry) = l.map uploadViewOfEntry
  induction l with
  | nil => rfl
  | cons e rest ih =>
    simp only [List.map_cons]
    show uploadViewOfEntry e :: dedupGo [] (rest.map uploadViewOfEntry) = _
    rw [ih]

/-! ## Claim theorem for the persist/load round trip -/

/-- C9: persisting a record sequence (serialize, append the end-of-line,
write atomically) and loading it back returns the sequence unchanged, despite
the trailing end-of-line, for any platform JSON codec that tolerates the
trailing whitespace and parses its own array serialization back to the same
array: the loader parses the full file content and its top-level-array check
accepts the result. -/
theorem persist_load_round_trip {R : Type} (P : JsonPlatform R) (l : List R)
    (hws : P.parse (P.stringify l ++ osEOL) = P.parse (P.stringify l))
    (hrt : P.parse (P.stringify l) = some (ParsedTop.arrayOf l)) :
    loadLogs P (some (atomicWriteContent P l)) = l := by
  simp [loadLogs, atomicWriteContent, hws, hrt]

/-- C9 witness: the concrete unary codec satisfies both codec hypotheses at a
two-element sequence, and the round trip returns it unchanged. -/
theorem persist_load_round_trip_witness :
    unaryPlatform.parse (unaryPlatform.stringify [(), ()] ++ osEOL) =
        unaryPlatform.parse (unaryPlatform.stringify [(), ()]) ∧
    unaryPlatform.parse (unaryPlatform.stringify [(), ()]) =
        some (ParsedTop.arrayOf [(), ()]) ∧
    loadLogs unaryPlatform (some (atomicWriteContent unaryPlatform [(), ()])) = [(), ()] :=
  ⟨by decide, by decide,
   persist_load_round_trip unaryPlatform [(), ()] (by decide) (by decide)⟩

/-! ## Path lemmas for the replay verifier gate -/

theorem jsStartsWith_nil_pre (s : List Char) : jsStartsWith s [] = true := by
  cases s <;> rfl

theorem jsStartsWith_append_both (a : List Char) :
    ∀ x y : List Char, jsStartsWith (a ++ x) (a ++ y) = jsStartsWith x y := by
  induction a with
  | nil => intro x y; rfl
  | cons c cs ih =>
    intro x y
    show (c == c && jsStartsWith (cs ++ x) (cs ++ y)) = jsStartsWith x y
    rw [ih]
    simp

theorem jsStartsWith_cons (c p : Char) (cs ps : List Char) :
    jsStartsWith (c :: cs) (p :: ps) = (c == p && jsStartsWith cs ps) := rfl

theorem jsStartsWith_mem (pre : List Char) :
    ∀ s : List Char, jsStartsWith s pre = true → ∀ ch ∈ pre, ch ∈ s := by
  induction pre with
  | nil => intro s _ ch hch; cases hch
  | cons p ps ih =>
    intro s hpre ch hch
    cases s with
    | nil => simp [jsStartsWith] at hpre
    | cons c cs =>
      rw [jsStartsWith_cons, Bool.and_eq_true] at hpre
      have hcp : c = p := beq_iff_eq.mp hpre.1
      rcases List.mem_cons.mp hch with h | h
      · rw [h, ← hcp]
        exact List.mem_cons_self c cs
      · exact List.mem_cons_of_mem c (ih cs hpre.2 ch h)

theorem jsStartsWith_sep_split (a : List Char) :
    ∀ c x d : List Char, '/' ∉ a → '/' ∉ c →
      jsStartsWith (c ++ '/' :: d) (a ++ '/' :: x) = true →
      a = c ∧ jsStartsWith d x = true := by
  induction a with
  | nil =>
    intro c x d _ hc h
    cases c with
    | nil =>
      refine ⟨rfl, ?_⟩
      rw [List.nil_append, List.nil_append, jsStartsWith_cons, Bool.and_eq_true] at h
      exact h.2
    | cons ch cs =>
      exfalso
      rw [List.nil_append, List.cons_append, jsStartsWith_cons, Bool.and_eq_true] at h
      have hch : ch = '/' := beq_iff_eq.mp h.1
      apply hc
      rw [← hch]
      exact List.mem_cons_self ch cs
  | cons a0 as ih =>
    intro c x d ha hc h
    cases c with
    | nil =>
      exfalso
      rw [List.nil_append, List.cons_append, jsStartsWith_cons, Bool.and_eq_true] at h
      have ha0 : '/' = a0 := beq_iff_eq.mp h.1
      apply ha
      rw [ha0]
      exact List.mem_cons_self a0 as
    | cons c0 cs =>
      rw [List.cons_append, List.cons_append, jsStartsWith_cons, Bool.and_eq_true] at h
      have h01 : c0 = a0 := beq_iff_eq.mp h.1
      have hrest := ih cs x d (fun hm => ha (List.mem_cons_of_mem a0 hm))
        (fun hm => hc (List.mem_cons_of_mem c0 hm)) h.2
      exact ⟨by rw [← h01, hrest.1], hrest.2⟩

theorem joinComponents_cons_cons (c d : List Char) (rest : List (List Char)) :
    joinComponents (c :: d :: rest) = c ++ '/' :: joinComponents (d :: rest) := rfl

theorem joinGate_of_append (b : List (List Char)) :
    ∀ rest : List (List Char), b ≠ [] → rest ≠ [] →
      jsStartsWith (joinComponents (b ++ rest)) (joinComponents b ++ ['/']) = true := by
  induction b with
  | nil => intro rest hb _; exact absurd rfl hb
  | cons b0 bs ih =>
    intro rest _ hr
    cases bs with
    | nil =>
      cases rest with
      | nil => exact absurd rfl hr
      | cons r0 rs =>
        show jsStartsWith (b0 ++ '/' :: joinComponents (r0 :: rs))
          (b0 ++ ['/']) = true
        rw [show (b0 ++ ['/'] : List Char) = b0 ++ '/' :: [] from rfl,
          jsStartsWith_append_both, jsStartsWith_cons, Bool.and_eq_true]
        exact ⟨by decide, jsStartsWith_nil_pre _⟩
    | cons b1 bs' =>
      show jsStartsWith (b0 ++ '/' :: joinComponents ((b1 :: bs') ++ rest))
        ((b0 ++ '/' :: joinComponents (b1 :: bs')) ++ ['/']) = true
      rw [List.append_assoc, jsStartsWith_append_both,
        show (('/' :: joinComponents (b1 :: bs')) ++ ['/'] : List Char) =
          '/' :: (joinComponents (b1 :: bs') ++ ['/']) from rfl,
        jsStartsWith_cons, Bool.and_eq_true]
      exact ⟨by decide, ih rest (by simp) hr⟩

theorem joinGate_rev (b : List (List Char)) :
    ∀ p : List (List Char), b ≠ [] → slashFree b → slashFree p →
      jsStartsWith (joinComponents p) (joinComponents b ++ ['/']) = true →
      ∃ rest, rest ≠ [] ∧ p = b ++ rest := by
  induction b with
  | nil => intro p hb _ _ _; exact absurd rfl hb
  | cons b0 bs ih =>
    intro p _ hbf hpf h
    have hb0 : '/' ∉ b0 := hbf b0 (List.mem_cons_self _ _)
    have hslash : ('/' : Char) ∈ joinComponents (b0 :: bs) ++ ['/'] := by simp
    cases p with
    | nil =>
      exfalso
      have hlen : joinComponents (b0 :: bs) ++ ['/'] ≠ [] := by simp
      cases hcase : joinComponents (b0 :: bs) ++ ['/'] with
      | nil => exact hlen hcase
      | cons q qs =>
        rw [hcase] at h
        simp [jsStartsWith] at h
    | cons p0 ptl =>
      have hp0 : '/' ∉ p0 := hpf p0 (List.mem_cons_self _ _)
      cases ptl with
      | nil =>
        exfalso
        exact hp0 (jsStartsWith_mem _ _ h '/' hslash)
      | cons p1 ps =>
        cases bs with
        | nil =>
          have h2 : jsStartsWith (p0 ++ '/' :: joinComponents (p1 :: ps))
              (b0 ++ '/' :: []) = true := h
          have hsplit := jsStartsWith_sep_split b0 p0 [] (joinComponents (p1 :: ps))
            hb0 hp0 h2
          exact ⟨p1 :: ps, by simp, by rw [hsplit.1]; exact rfl⟩
        | cons b1 bs' =>
          have h2 : jsStartsWith (p0 ++ '/' :: joinComponents (p1 :: ps))
              (b0 ++ '/' :: (joinComponents (b1 :: bs') ++ ['/'])) = true := by
            have hjc : joinComponents (b0 :: b1 :: bs') ++ ['/'] =
                b0 ++ '/' :: (joinComponents (b1 :: bs') ++ ['/']) := by
              rw [joinComponents_cons_cons, List.append_assoc]
              rfl
            rw [← hjc]
            exact h
          have hsplit := jsStartsWith_sep_split b0 p0
            (joinComponents (b1 :: bs') ++ ['/']) (joinComponents (p1 :: ps))
            hb0 hp0 h2
          have hrest := ih (p1 :: ps) (by simp)
            (fun c hc => hbf c (List.mem_cons_of_mem b0 hc))
            (fun c hc => hpf c (List.mem_cons_of_mem p0 hc)) hsplit.2
          obtain ⟨rest, hne, heq⟩ := hrest
          exact ⟨rest, hne, by rw [hsplit.1, heq]; rfl⟩

theorem insideDir_iff (b p : List (List Char)) :
    insideDir b p ↔ ∃ rest, rest ≠ [] ∧ p = b ++ rest := by
  constructor
  · rintro ⟨htake, hlen⟩
    refine ⟨p.drop b.length, ?_, ?_⟩
    · intro hnil
      have := congrArg List.length hnil
      simp [List.length_drop] at this
      omega
    · conv_lhs => rw [← List.take_append_drop b.length p]
      rw [htake]
  · rintro ⟨rest, hne, rfl⟩
    constructor
    · exact List.take_left b rest
    · have : 0 < rest.length := List.length_pos.mpr hne
      simp [List.length_append]
      omega

theorem gate_true_of_inside (b p : List (List Char)) (hb : b ≠ [])
    (hin : insideDir b p) :
    jsStartsWith (renderAbs p) (renderAbs b ++ ['/']) = true := by
  obtain ⟨rest, hne, rfl⟩ := (insideDir_iff b p).mp hin
  show jsStartsWith ('/' :: joinComponents (b ++ rest))
    (('/' :: joinComponents b) ++ ['/']) = true
  rw [show (('/' :: joinComponents b) ++ ['/']) =
    '/' :: (joinComponents b ++ ['/']) from rfl]
  show (('/' : Char) == '/' && jsStartsWith (joinComponents (b ++ rest))
    (joinComponents b ++ ['/'])) = true
  rw [joinGate_of_append b rest hb hne]
  simp

theorem inside_of_gate_true (b p : List (List Char)) (hb : b ≠ [])
    (hbf : slashFree b) (hpf : slashFree p)
    (h : jsStartsWith (renderAbs p) (renderAbs b ++ ['/']) = true) :
    insideDir b p := by
  rw [insideDir_iff]
  apply joinGate_rev b p hb hbf hpf
  have h2 : jsStartsWith ('/' :: joinComponents p)
      ('/' :: (joinComponents b ++ ['/'])) = true := by
    rw [show ('/' :: (joinComponents b ++ ['/'])) =
      (('/' :: joinComponents b) ++ ['/']) from rfl]
    exact h
  have h3 : (('/' : Char) == '/' && jsStartsWith (joinComponents p)
      (joinComponents b ++ ['/'])) = true := h2
  simpa using h3

/-! ## Claim theorems for the replay verifier -/

/-- C6: when the resolved `--file` path lies outside the permitted base
directory, the verifier exits with code 1 without performing any file read;
when the resolved path lies inside the base directory it passes the check
(the run is never the read-free exit-1 rejection).  Paths are rendered from
their resolved components; the components of a resolved path never contain
the separator. -/
theorem replay_path_safety (Pos : Type) (E : ChessEngine Pos) (maxMovesCfg : Nat)
    (b p : List (List Char)) (fsRead : List Char → Option (Option (List StoredEntry)))
    (seedArg : Option String) (indexArg : Option Nat)
    (hb : b ≠ []) (hbf : slashFree b) (hpf : slashFree p)
    (hseed : seedArg ≠ some "") :
    (¬ insideDir b p →
        replayMain E maxMovesCfg (renderAbs b) (some (renderAbs p)) fsRead seedArg indexArg =
          { reads := [], exitCode := some 1, comparison := none, simOnly := none }) ∧
    (insideDir b p →
        replayMain E maxMovesCfg (renderAbs b) (some (renderAbs p)) fsRead seedArg indexArg ≠
          { reads := [], exitCode := some 1, comparison := none, simOnly := none }) := by
  constructor
  · intro hout
    have hgate : jsStartsWith (renderAbs p) (renderAbs b ++ ['/']) = false := by
      cases hcase : jsStartsWith (renderAbs p) (renderAbs b ++ ['/']) with
      | false => rfl
      | true => exact absurd (inside_of_gate_true b p hb hbf hpf hcase) hout
    simp [replayMain, hgate]
  · intro hin
    have hgate := gate_true_of_inside b p hb hin
    cases seedArg with
    | none =>
      cases indexArg with
      | none =>
        cases hr : fsRead (renderAbs p) with
        | none => simp [replayMain, hgate, hr]
        | some o =>
          cases o with
          | none => simp [replayMain, hgate, hr]
          | some arr => simp [replayMain, hgate, hr]
      | some k =>
        cases hr : fsRead (renderAbs p) with
        | none => simp [replayMain, hgate, hr]
        | some o =>
          cases o with
          | none => simp [replayMain, hgate, hr]
          | some arr =>
            by_cases hk : k < arr.length
            · simp [replayMain, hgate, hr, hk]
              split <;> simp
            · simp [replayMain, hgate, hr, hk]
    | some s =>
      have hs : s ≠ "" := fun hc => hseed (by rw [hc])
      cases indexArg with
      | none => simp [replayMain, hgate, hs]
      | some k =>
        cases hr : fsRead (renderAbs p) with
        | none => simp [replayMain, hgate, hr]
        | some o =>
          cases o with
          | none => simp [replayMain, hgate, hr]
          | some arr =>
            by_cases hk : k < arr.length
            · simp [replayMain, hgate, hr, hk]
              split <;> simp
            · simp [replayMain, hgate, hr, hk]

/-- C6 witness: the resolved path /etc/x lies outside the base directory /usr
and is rejected with exit code 1 before any read. -/
theorem replay_path_safety_witness :
    ¬ insideDir [['u', 's', 'r']] [['e', 't', 'c'], ['x']] ∧
    replayMain toyEngine 100 (renderAbs [['u', 's', 'r']])
        (some (renderAbs [['e', 't', 'c'], ['x']])) (fun _ => none) none (some 0) =
      { reads := [], exitCode := some 1, comparison := none, simOnly := none } :=
  ⟨by decide,
   (replay_path_safety Unit toyEngine 100 [['u', 's', 'r']] [['e', 't', 'c'], ['x']]
      (fun _ => none) none (some 0) (by decide) (by decide) (by decide)
      (by decide)).1 (by decide)⟩

/-- C7: in index mode on a store of n entries the verifier selects
`arr[n - 1 - k]` (index 0 is the chronologically last entry, index n-1 the
first), exits with code 3 when no entry exists at that index, and otherwise
re-simulates with the selected entry's stored seed and its stored ply count
as the cap. -/
theorem replay_index_selection (Pos : Type) (E : ChessEngine Pos) (maxMovesCfg : Nat)
    (base fp : List Char) (fsRead : List Char → Option (Option (List StoredEntry)))
    (seedArg : Option String) (arr : List StoredEntry) (k : Nat)
    (hgate : jsStartsWith fp (base ++ ['/']) = true)
    (hread : fsRead fp = some (some arr)) :
    (k < arr.length →
        (arr.getD (arr.length - 1 - k) defaultStoredEntry).seed ≠ "" →
        replayMain E maxMovesCfg base (some fp) fsRead seedArg (some k) =
          { reads := [fp], exitCode := none,
            comparison := some
              (simulateGameWithSeed E
                 (arr.getD (arr.length - 1 - k) defaultStoredEntry).seed
                 (arr.getD (arr.length - 1 - k) defaultStoredEntry).move_count,
               arr.getD (arr.length - 1 - k) defaultStoredEntry),
            simOnly := none }) ∧
    (arr.length ≤ k →
        replayMain E maxMovesCfg base (some fp) fsRead seedArg (some k) =
          { reads := [fp], exitCode := some 3, comparison := none, simOnly := none }) := by
  constructor
  · intro hk hseedne
    simp only [List.getD_eq_getElem?_getD] at hseedne
    cases seedArg with
    | none => simp [replayMain, hgate, hread, hk, hseedne]
    | some s => simp [replayMain, hgate, hread, hk, hseedne]
  · intro hk
    have hk2 : ¬ k < arr.length := Nat.not_lt.mpr hk
    cases seedArg with
    | none => simp [replayMain, hgate, hread, hk2]
    | some s => simp [replayMain, hgate, hread, hk2]

/-- C7 witness: on a two-entry store, index 0 selects the chronologically
last entry (seed s2, ply count 2 as the cap) and index 5 exits with code 3. -/
theorem replay_index_selection_witness :
    replayMain toyEngine 100 ['b'] (some ['b', '/', 'f'])
        (fun _ => some (some witnessStore)) none (some 0) =
      { reads := [['b', '/', 'f']], exitCode := none,
        comparison := some
          (simulateGameWithSeed toyEngine
             (witnessStore.getD (witnessStore.length - 1 - 0) defaultStoredEntry).seed
             (witnessStore.getD (witnessStore.length - 1 - 0) defaultStoredEntry).move_count,
           witnessStore.getD (witnessStore.length - 1 - 0) defaultStoredEntry),
        simOnly := none } ∧
    replayMain toyEngine 100 ['b'] (some ['b', '/', 'f'])
        (fun _ => some (some witnessStore)) none (some 5) =
      { reads := [['b', '/', 'f']], exitCode := some 3, comparison := none,
        simOnly := none } :=
  ⟨(replay_index_selection Unit toyEngine 100 ['b'] ['b', '/', 'f']
      (fun _ => some (some witnessStore)) none witnessStore 0 (by decide) rfl).1
      (by decide) (by decide),
   (replay_index_selection Unit toyEngine 100 ['b'] ['b', '/', 'f']
      (fun _ => some (some witnessStore)) none witnessStore 5 (by decide) rfl).2
      (by decide)⟩

end Microchess
